import Mathlib

set_option maxHeartbeats 1000000

/-!
Shallow embedding of the `tcod.ec` package (`src/tcod/ec/__init__.py`):
the `ComponentDict` and `Composite` containers, the `abstract_component`
key-resolution rule, observer dispatch, and the pickle state round-trip.

Python objects are modelled as a runtime type id plus an identity payload;
the host type system (MRO chains and the set of abstract-registered types)
is a parameter carrying the guarantees CPython provides for `__mro__`.
Dictionaries are insertion-ordered association lists, as CPython dicts are.
Observer callbacks are uninterpreted: a mutation returns, besides the new
state, the ordered trace of observer invocations with their arguments.
-/

/-- A Python object: runtime type id `ty` and an identity payload `val`.
Two objects are the same Python object exactly when both fields agree. -/
structure Obj where
  ty : Nat
  val : Nat
deriving DecidableEq, Repr

/-- The host type system.  `mro t` is the method resolution order of type
`t` (CPython guarantees it starts with `t` itself, contains the universal
root `object` — id 0 here — and has no duplicates).  `registered t` holds
when `abstract_component` has set `t._COMPONENT_TYPE = t`. -/
structure TypeSys where
  mro : Nat → List Nat
  registered : Nat → Bool
  mro_head : ∀ t, (mro t).head? = some t
  mro_root : ∀ t, 0 ∈ mro t
  mro_nodup : ∀ t, (mro t).Nodup

/-- `getattr(x, "_COMPONENT_TYPE", type-of-x)`: attribute lookup walks the
MRO and returns the first registered class (whose attribute value is that
class itself), else the exact type. -/
def resolveTy (u : TypeSys) (t : Nat) : Nat :=
  ((u.mro t).find? u.registered).getD t

/-- Lookup in an insertion-ordered association list (Python dict read). -/
def alookup {α : Type} : List (Nat × α) → Nat → Option α
  | [], _ => none
  | (t, v) :: rest, k => if t = k then some v else alookup rest k

/-- Python dict assignment: overwrite in place if the key is present,
otherwise append at the end of the insertion order. -/
def aupdate {α : Type} : List (Nat × α) → Nat → α → List (Nat × α)
  | [], k, v => [(k, v)]
  | (t, w) :: rest, k, v => if t = k then (t, v) :: rest else (t, w) :: aupdate rest k v

/-- Python dict `del`: drop the (first) entry with the given key. -/
def aerase {α : Type} : List (Nat × α) → Nat → List (Nat × α)
  | [], _ => []
  | (t, v) :: rest, k => if t = k then rest else (t, v) :: aerase rest k

/-- Python exceptions raised by the two containers. -/
inductive ECError where
  | typeError
  | keyError (key : Nat)
  | valueError
  | assertionError
deriving DecidableEq, Repr

/-- State of a `ComponentDict`: `slots` is the `_components` dict
(canonical key ↦ component), `observers` the local observer dict
(key ↦ ordered callback ids). -/
structure CDState where
  slots : List (Nat × Obj)
  observers : List (Nat × List Nat)
deriving DecidableEq, Repr

/-- One observer invocation.  `entity` is the container state the callback
sees when it runs (the slot update has already been applied). -/
inductive Event where
  | globalCall (entity : CDState) (obs : Nat) (key : Nat) (newVal oldVal : Option Obj)
  | localCall (entity : CDState) (obs : Nat) (newVal oldVal : Option Obj)
deriving DecidableEq, Repr

namespace ComponentDict

/-- The slot update and observer dispatch of `__setitem__`, after the
key-match check has passed: store the value, then call every global
observer with `(self, key, value, old_value)`, then every local observer
registered for `key` with `(self, value, old_value)`. -/
def store (gobs : List Nat) (s : CDState) (k : Nat) (v : Obj) : CDState × List Event :=
  let old := alookup s.slots k
  let s' : CDState := { s with slots := aupdate s.slots k v }
  (s', (gobs.map fun g => Event.globalCall s' g k (some v) old)
    ++ ((alookup s.observers k).getD []).map fun f => Event.localCall s' f (some v) old)

/-- `ComponentDict.__setitem__`: raise `TypeError` unless the value's
canonical key (`getattr(value, "_COMPONENT_TYPE", value.__class__)`)
is the given key; otherwise store and notify. -/
def setitem (u : TypeSys) (gobs : List Nat) (s : CDState) (k : Nat) (v : Obj) :
    Except ECError (CDState × List Event) :=
  if resolveTy u v.ty = k then .ok (store gobs s k v) else .error .typeError

/-- `ComponentDict.__delitem__`: `KeyError` if absent, else drop the slot
and fire the same observer sequence with `new_value = None`. -/
def delitem (gobs : List Nat) (s : CDState) (k : Nat) :
    Except ECError (CDState × List Event) :=
  match alookup s.slots k with
  | none => .error (.keyError k)
  | some old =>
    let s' : CDState := { s with slots := aerase s.slots k }
    .ok (s', (gobs.map fun g => Event.globalCall s' g k none (some old))
      ++ ((alookup s.observers k).getD []).map fun f => Event.localCall s' f none (some old))

/-- `ComponentDict.set(*components)`: assign each component under its
canonical key, in argument order, accumulating the observer trace.
(The key-match check of `__setitem__` passes by construction here;
`setitem_of_set_key` below records that.) -/
def set (u : TypeSys) (gobs : List Nat) (s : CDState) (cs : List Obj) : CDState × List Event :=
  cs.foldl (fun acc c =>
    let r := store gobs acc.1 (resolveTy u c.ty) c
    (r.1, acc.2 ++ r.2)) (s, [])

/-- `ComponentDict.__init__(components, observers)`: record the observer
dict, start with empty slots, then `set(*components)`. -/
def init (u : TypeSys) (gobs : List Nat) (cs : List Obj)
    (obs : List (Nat × List Nat)) : CDState × List Event :=
  set u gobs { slots := [], observers := obs } cs

/-- `ComponentDict.__getitem__`: assert the key is not a derived class of
an abstract component (`__assert_key`, active since `__debug__` is true),
then return the stored component or raise `KeyError` via `__missing__`. -/
def getitem (u : TypeSys) (s : CDState) (k : Nat) : Except ECError Obj :=
  if resolveTy u k = k then
    match alookup s.slots k with
    | some v => .ok v
    | none => .error (.keyError k)
  else .error .assertionError

/-- The pickled form produced by `__getstate__`: the component sequence in
insertion order plus the observer dict. -/
structure Captured where
  components : List Obj
  observers : List (Nat × List Nat)
deriving DecidableEq, Repr

/-- `ComponentDict.__getstate__` for a plain `ComponentDict`: collect the
slot attributes and replace `_components` by its value tuple. -/
def getstate (s : CDState) : Captured :=
  { components := s.slots.map Prod.snd, observers := s.observers }

/-- `ComponentDict.__setstate__` on the current format: pull out the
components and observers, rebuild through `set(*components)` with the
observer dict temporarily empty, then install the captured observers. -/
def setstate (u : TypeSys) (gobs : List Nat) (st : Captured) : CDState × List Event :=
  let r := set u gobs { slots := [], observers := [] } st.components
  ({ r.1 with observers := st.observers }, r.2)

/-- `ComponentDict.__repr__`, parametrised by the repr of components and
of the observer dict. -/
def reprStr (ρ : Obj → String) (ρo : List (Nat × List Nat) → String) (s : CDState) : String :=
  let comps := "[" ++ String.intercalate ", " (s.slots.map fun p => ρ p.2) ++ "]"
  if s.observers = [] then "ComponentDict(" ++ comps ++ ")"
  else "ComponentDict(" ++ comps ++ ", observers=" ++ ρo s.observers ++ ")"

/-- One `popitem` step of `MutableMapping.clear`: take the first key in
iteration order, read it back (`self[key]`), then `del self[key]`.  The
fuel argument bounds the loop; `slots.length` always suffices because
each step removes one entry. -/
def clearLoop (u : TypeSys) (gobs : List Nat) :
    Nat → CDState → Except ECError (CDState × List Event)
  | 0, s => .ok (s, [])
  | fuel + 1, s =>
    match s.slots with
    | [] => .ok (s, [])
    | (k, _) :: _ =>
      match getitem u s k with
      | .error e => .error e
      | .ok _ =>
        match delitem gobs s k with
        | .error e => .error e
        | .ok (s', evs) =>
          match clearLoop u gobs fuel s' with
          | .error e => .error e
          | .ok (s'', evs') => .ok (s'', evs ++ evs')

/-- `MutableMapping.clear` as inherited by `ComponentDict`: repeatedly
`popitem` (read then delete the first remaining key) until a `KeyError`
signals emptiness. -/
def clear (u : TypeSys) (gobs : List Nat) (s : CDState) :
    Except ECError (CDState × List Event) :=
  clearLoop u gobs s.slots.length s

/-- Deleting a list of keys in order with `__delitem__`, accumulating the
observer trace; `clear` is proved equivalent to this on dict-valid states. -/
def deleteAll (gobs : List Nat) (s : CDState) : List Nat →
    Except ECError (CDState × List Event)
  | [] => .ok (s, [])
  | k :: rest =>
    match delitem gobs s k with
    | .error e => .error e
    | .ok (s', evs) =>
      match deleteAll gobs s' rest with
      | .error e => .error e
      | .ok (s'', evs') => .ok (s'', evs ++ evs')

end ComponentDict

/-- Projection used to state success results of fallible operations. -/
def okState : Except ECError (CDState × List Event) → Option CDState
  | .ok r => some r.1
  | .error _ => none

namespace Composite

/-- State of a `Composite`: the `_components` defaultdict, mapping each
ancestor type to the insertion-ordered list of components stored under it. -/
abbrev State := List (Nat × List Obj)

/-- Remove the first occurrence of a value from a list (`list.remove`). -/
def removeFirst : List Obj → Obj → List Obj
  | [], _ => []
  | x :: xs, c => if x = c then xs else x :: removeFirst xs c

/-- `Composite.add`: for every class in the component's MRO, append the
component to that class's list (a missing key is created by the
defaultdict, at the end of the key insertion order). -/
def add (u : TypeSys) (s : State) (c : Obj) : State :=
  (u.mro c.ty).foldl (fun s t => aupdate s t ((alookup s t).getD [] ++ [c])) s

/-- The loop of `Composite.remove` over the component's MRO.  For each
class: `self._components[cls]` (a defaultdict access — a missing key
inserts an empty list before `list.remove` raises `ValueError`), remove
the first equal entry or raise `ValueError`, and drop the key if its list
became empty.  On error the partially mutated state is kept, as the
Python exception leaves `self` mutated. -/
def removeChain (u : TypeSys) : State → List Nat → Obj → State × Option ECError
  | s, [], _ => (s, none)
  | s, t :: rest, c =>
    match alookup s t with
    | none => (aupdate s t [], some .valueError)
    | some l =>
      if c ∈ l then
        removeChain u (if removeFirst l c = [] then aerase s t
          else aupdate s t (removeFirst l c)) rest c
      else (s, some .valueError)

/-- `Composite.remove`: walk the component's MRO removing it everywhere. -/
def remove (u : TypeSys) (s : State) (c : Obj) : State × Option ECError :=
  removeChain u s (u.mro c.ty) c

/-- The loop of `Composite.__delitem__` over the snapshot
`list(self._components[key])`: remove each component in order, stopping
at (and propagating) the first error. -/
def removeAll (u : TypeSys) : State → List Obj → State × Option ECError
  | s, [] => (s, none)
  | s, c :: rest =>
    match remove u s c with
    | (s', none) => removeAll u s' rest
    | (s', some e) => (s', some e)

/-- `Composite.__delitem__`: no-op when the key is absent, else remove
every component currently listed under it (cascading through each removed
component's own ancestor keys). -/
def delitem (u : TypeSys) (s : State) (k : Nat) : State × Option ECError :=
  match alookup s k with
  | none => (s, none)
  | some l => removeAll u s l

/-- `Composite.__setitem__`: `del self[key]` then `add` each new value
(no type check relates the values to the key). -/
def setitem (u : TypeSys) (s : State) (k : Nat) (vs : List Obj) : State × Option ECError :=
  match delitem u s k with
  | (s', none) => (vs.foldl (add u) s', none)
  | r => r

/-- `Composite.__getitem__`: the list stored under the key, or the empty
sequence when absent (a plain `.get`, no defaultdict insertion). -/
def getitem (s : State) (k : Nat) : List Obj :=
  (alookup s k).getD []

/-- `Composite.__contains__` for a single key: `key in self._components`. -/
def containsKey (s : State) (k : Nat) : Bool :=
  (alookup s k).isSome

/-- `Composite.__contains__` for an iterable of keys: all present. -/
def contains (s : State) (keys : List Nat) : Bool :=
  keys.all (containsKey s)

/-- `Composite.__init__`: `add` each component in order. -/
def init (u : TypeSys) (cs : List Obj) : State :=
  cs.foldl (add u) []

/-- `Composite.extend`: `add` each component in order. -/
def extend (u : TypeSys) (s : State) (cs : List Obj) : State :=
  cs.foldl (add u) s

/-- `Composite.clear`: `del self[object]` when the root key is present. -/
def clear (u : TypeSys) (s : State) : State × Option ECError :=
  if containsKey s 0 then delitem u s 0 else (s, none)

/-- The index a `Composite` should hold for a master component list `L`:
under each type, the components of `L` whose MRO contains it. -/
def chainFilter (u : TypeSys) (L : List Obj) (t : Nat) : List Obj :=
  L.filter fun c => decide (t ∈ u.mro c.ty)

/-- The state `s` faithfully indexes the master list `L`: it is a dict
(no duplicate keys) and every type's entry is exactly the non-empty
`chainFilter`, absent when that filter is empty. -/
def Indexes (u : TypeSys) (s : State) (L : List Obj) : Prop :=
  (s.map Prod.fst).Nodup ∧
    ∀ t, alookup s t = if chainFilter u L t = [] then none else some (chainFilter u L t)

end Composite

/-- Invariant of a reachable `_components` dict of a `ComponentDict`:
distinct keys, each equal to the canonical key of its stored value. -/
def SlotsInv (u : TypeSys) (sl : List (Nat × Obj)) : Prop :=
  (sl.map Prod.fst).Nodup ∧ ∀ p ∈ sl, p.1 = resolveTy u p.2.ty

/-- A concrete MRO table used for witnesses: type 1 is `AreaOfEffect`-like
(abstract-registered below), type 2 a `Circle`-like subclass of 1, and
every other type a direct subclass of the root `object` (id 0). -/
def sampleMro : Nat → List Nat
  | 0 => [0]
  | 1 => [1, 0]
  | 2 => [2, 1, 0]
  | t + 3 => [t + 3, 0]

/-- A concrete type system for witnesses, with type 1 registered as an
abstract component (so type 2 resolves to 1). -/
def sampleTS : TypeSys where
  mro := sampleMro
  registered := fun t => t == 1
  mro_head := fun t =>
    match t with
    | 0 => rfl
    | 1 => rfl
    | 2 => rfl
    | _ + 3 => rfl
  mro_root := fun t =>
    match t with
    | 0 => by decide
    | 1 => by decide
    | 2 => by decide
    | t + 3 => by simp [sampleMro]
  mro_nodup := fun t =>
    match t with
    | 0 => by decide
    | 1 => by decide
    | 2 => by decide
    | t + 3 => by simp [sampleMro]

/-- A `ComponentDict` object on the Python heap: its identity `ref` and
its contents. -/
structure CDInstance where
  ref : Nat
  state : CDState
deriving DecidableEq

/-- `ComponentDict.__eq__ = object.__eq__`: comparison by object identity,
ignoring contents. -/
def CDInstance.eqPy (a b : CDInstance) : Bool := a.ref == b.ref

/-- `ComponentDict.__hash__ = object.__hash__`: hash from the object
identity alone. -/
def CDInstance.hashPy (a : CDInstance) : Nat := a.ref

/-- A `Composite` object on the Python heap. -/
structure CompositeInstance where
  ref : Nat
  state : Composite.State
deriving DecidableEq

/-- `Composite` defines no `__eq__`, so it inherits `object.__eq__`:
comparison by object identity. -/
def CompositeInstance.eqPy (a b : CompositeInstance) : Bool := a.ref == b.ref

/-- `Composite` inherits `object.__hash__` as well. -/
def CompositeInstance.hashPy (a : CompositeInstance) : Nat := a.ref

/-! ### Association-list lemmas (Python dict semantics) -/

theorem alookup_aupdate_self {α : Type} (s : List (Nat × α)) (k : Nat) (v : α) :
    alookup (aupdate s k v) k = some v := by
  induction s with
  | nil => simp [aupdate, alookup]
  | cons p rest ih =>
    obtain ⟨t, w⟩ := p
    by_cases h : t = k
    · simp [aupdate, alookup, h]
    · simp [aupdate, alookup, h, ih]

theorem alookup_aupdate_ne {α : Type} (s : List (Nat × α)) (k k' : Nat) (v : α)
    (h : k' ≠ k) : alookup (aupdate s k v) k' = alookup s k' := by
  have h2 : ¬ k = k' := fun he => h he.symm
  induction s with
  | nil => simp [aupdate, alookup, h2]
  | cons p rest ih =>
    obtain ⟨t, w⟩ := p
    by_cases ht : t = k
    · subst ht
      simp [aupdate, alookup, h2]
    · simp [aupdate, alookup, ht, ih]

theorem map_fst_aupdate {α : Type} (s : List (Nat × α)) (k : Nat) (v : α) :
    (aupdate s k v).map Prod.fst =
      if k ∈ s.map Prod.fst then s.map Prod.fst else s.map Prod.fst ++ [k] := by
  induction s with
  | nil => simp [aupdate]
  | cons p rest ih =>
    obtain ⟨t, w⟩ := p
    by_cases h : t = k
    · simp [aupdate, h]
    · have h2 : ¬ k = t := fun he => h he.symm
      simp only [aupdate, if_neg h, List.map_cons, ih]
      by_cases hm : k ∈ rest.map Prod.fst
      · simp [hm, h2]
      · simp [hm, h2]

theorem nodup_aupdate {α : Type} (s : List (Nat × α)) (k : Nat) (v : α)
    (hnd : (s.map Prod.fst).Nodup) : ((aupdate s k v).map Prod.fst).Nodup := by
  rw [map_fst_aupdate]
  by_cases hm : k ∈ s.map Prod.fst
  · simpa [hm] using hnd
  · rw [if_neg hm]
    simp [List.nodup_append, hnd, hm]

theorem mem_aupdate {α : Type} (s : List (Nat × α)) (k : Nat) (v : α) (p : Nat × α)
    (hp : p ∈ aupdate s k v) : p ∈ s ∨ p = (k, v) := by
  induction s with
  | nil =>
    simp only [aupdate, List.mem_singleton] at hp
    exact Or.inr hp
  | cons q rest ih =>
    obtain ⟨t, w⟩ := q
    by_cases ht : t = k
    · subst ht
      simp only [aupdate, eq_self_iff_true, if_true, List.mem_cons] at hp
      rcases hp with h1 | h1
      · exact Or.inr (by simp [h1])
      · exact Or.inl (List.mem_cons_of_mem _ h1)
    · simp only [aupdate, if_neg ht, List.mem_cons] at hp
      rcases hp with h1 | h1
      · exact Or.inl (by simp [h1])
      · rcases ih h1 with h2 | h2
        · exact Or.inl (List.mem_cons_of_mem _ h2)
        · exact Or.inr h2

theorem aupdate_append_of_not_mem {α : Type} (s : List (Nat × α)) (k : Nat) (v : α)
    (h : k ∉ s.map Prod.fst) : aupdate s k v = s ++ [(k, v)] := by
  induction s with
  | nil => simp [aupdate]
  | cons p rest ih =>
    obtain ⟨t, w⟩ := p
    simp only [List.map_cons, List.mem_cons, not_or] at h
    have ht : ¬ t = k := fun he => h.1 he.symm
    simp [aupdate, ht, ih h.2]

theorem alookup_eq_none_iff {α : Type} (s : List (Nat × α)) (k : Nat) :
    alookup s k = none ↔ k ∉ s.map Prod.fst := by
  induction s with
  | nil => simp [alookup]
  | cons p rest ih =>
    obtain ⟨t, w⟩ := p
    by_cases h : t = k
    · simp [alookup, h]
    · have h2 : ¬ k = t := fun he => h he.symm
      simp [alookup, h, h2, ih]

theorem alookup_isSome_iff {α : Type} (s : List (Nat × α)) (k : Nat) :
    (alookup s k).isSome = true ↔ k ∈ s.map Prod.fst := by
  rw [← Decidable.not_iff_not, ← alookup_eq_none_iff]
  cases alookup s k <;> simp

theorem alookup_aerase_ne {α : Type} (s : List (Nat × α)) (k k' : Nat)
    (h : k' ≠ k) : alookup (aerase s k) k' = alookup s k' := by
  induction s with
  | nil => simp [aerase]
  | cons p rest ih =>
    obtain ⟨t, w⟩ := p
    by_cases ht : t = k
    · subst ht
      have h2 : ¬ t = k' := fun he => h he.symm
      simp [aerase, alookup, h2]
    · simp [aerase, alookup, ht, ih]

theorem map_fst_aerase {α : Type} (s : List (Nat × α)) (k : Nat) :
    (aerase s k).map Prod.fst = (s.map Prod.fst).erase k := by
  induction s with
  | nil => simp [aerase]
  | cons p rest ih =>
    obtain ⟨t, w⟩ := p
    by_cases h : t = k
    · subst h
      simp [aerase]
    · have hbeq : ¬ ((t : Nat) == k) := by simp [h]
      simp [aerase, h, ih, List.erase_cons_tail hbeq]

theorem nodup_aerase {α : Type} (s : List (Nat × α)) (k : Nat)
    (h : (s.map Prod.fst).Nodup) : ((aerase s k).map Prod.fst).Nodup := by
  rw [map_fst_aerase]
  exact h.erase k

theorem alookup_aerase_self {α : Type} (s : List (Nat × α)) (k : Nat)
    (h : (s.map Prod.fst).Nodup) : alookup (aerase s k) k = none := by
  rw [alookup_eq_none_iff, map_fst_aerase]
  exact h.not_mem_erase

/-! ### Canonical key resolution -/

theorem mro_cons (u : TypeSys) (t : Nat) : ∃ l, u.mro t = t :: l := by
  have h := u.mro_head t
  cases hm : u.mro t with
  | nil => rw [hm] at h; simp at h
  | cons x xs =>
    rw [hm] at h
    simp only [List.head?_cons, Option.some.injEq] at h
    exact ⟨xs, by rw [h]⟩

/-- `resolve` is idempotent: the canonical key of a component is itself a
valid key (its own canonical key). -/
theorem resolveTy_idem (u : TypeSys) (t : Nat) :
    resolveTy u (resolveTy u t) = resolveTy u t := by
  unfold resolveTy
  cases h : (u.mro t).find? u.registered with
  | none => simp [h]
  | some a =>
    have ha : u.registered a = true := List.find?_some h
    obtain ⟨l, hl⟩ := mro_cons u a
    simp [hl, List.find?_cons, ha]

/-! ### ComponentDict: state of `set`, `init`, and the slot invariant -/

theorem store_fst (gobs : List Nat) (s : CDState) (k : Nat) (v : Obj) :
    (ComponentDict.store gobs s k v).1 = { s with slots := aupdate s.slots k v } := rfl

/-- The key-match check of `__setitem__` always passes on the calls made by
`ComponentDict.set`, which uses the value's own canonical key. -/
theorem setitem_of_set_key (u : TypeSys) (gobs : List Nat) (s : CDState) (c : Obj) :
    ComponentDict.setitem u gobs s (resolveTy u c.ty) c =
      .ok (ComponentDict.store gobs s (resolveTy u c.ty) c) := by
  simp [ComponentDict.setitem]

theorem set_foldl_fst (u : TypeSys) (gobs : List Nat) :
    ∀ (cs : List Obj) (acc : CDState × List Event),
      (cs.foldl (fun acc c =>
        let r := ComponentDict.store gobs acc.1 (resolveTy u c.ty) c
        (r.1, acc.2 ++ r.2)) acc).1 =
      cs.foldl (fun st c => (ComponentDict.store gobs st (resolveTy u c.ty) c).1) acc.1 := by
  intro cs
  induction cs with
  | nil => intro acc; rfl
  | cons c rest ih => intro acc; simp only [List.foldl_cons, ih]

theorem foldl_store_state (u : TypeSys) (gobs : List Nat) :
    ∀ (cs : List Obj) (s : CDState),
      cs.foldl (fun st c => (ComponentDict.store gobs st (resolveTy u c.ty) c).1) s =
        { slots := cs.foldl (fun sl c => aupdate sl (resolveTy u c.ty) c) s.slots,
          observers := s.observers } := by
  intro cs
  induction cs with
  | nil => intro s; rfl
  | cons c rest ih => intro s; rw [List.foldl_cons, ih]; rfl

theorem set_state (u : TypeSys) (gobs : List Nat) (s : CDState) (cs : List Obj) :
    (ComponentDict.set u gobs s cs).1 =
      { slots := cs.foldl (fun sl c => aupdate sl (resolveTy u c.ty) c) s.slots,
        observers := s.observers } := by
  rw [ComponentDict.set, set_foldl_fst, foldl_store_state]

theorem alookup_foldl_aupdate_not_mem (f : Obj → Nat) :
    ∀ (cs : List Obj) (sl : List (Nat × Obj)) (k : Nat), (∀ c ∈ cs, f c ≠ k) →
      alookup (cs.foldl (fun sl c => aupdate sl (f c) c) sl) k = alookup sl k := by
  intro cs
  induction cs with
  | nil => intro sl k _; rfl
  | cons c rest ih =>
    intro sl k h
    simp only [List.foldl_cons]
    rw [ih _ k fun c' hc' => h c' (List.mem_cons_of_mem _ hc'),
      alookup_aupdate_ne _ _ _ _ (fun he => h c (List.mem_cons_self c rest) he.symm)]

theorem alookup_foldl_aupdate_mem (f : Obj → Nat) :
    ∀ (cs : List Obj) (sl : List (Nat × Obj)) (c : Obj), (cs.map f).Nodup → c ∈ cs →
      alookup (cs.foldl (fun sl c => aupdate sl (f c) c) sl) (f c) = some c := by
  intro cs
  induction cs with
  | nil => intro sl c _ hc; cases hc
  | cons d rest ih =>
    intro sl c hnd hc
    simp only [List.map_cons, List.nodup_cons] at hnd
    rcases List.mem_cons.mp hc with h | h
    · subst h
      simp only [List.foldl_cons]
      rw [alookup_foldl_aupdate_not_mem f rest _ (f c)
        (fun c' hc' he => hnd.1 (he ▸ List.mem_map_of_mem f hc')),
        alookup_aupdate_self]
    · exact ih _ c hnd.2 h

theorem slotsInv_foldl (u : TypeSys) :
    ∀ (cs : List Obj) (sl : List (Nat × Obj)), SlotsInv u sl →
      SlotsInv u (cs.foldl (fun sl c => aupdate sl (resolveTy u c.ty) c) sl) := by
  intro cs
  induction cs with
  | nil => intro sl h; exact h
  | cons c rest ih =>
    intro sl h
    simp only [List.foldl_cons]
    refine ih _ ⟨nodup_aupdate _ _ _ h.1, ?_⟩
    intro p hp
    rcases mem_aupdate _ _ _ _ hp with h2 | h2
    · exact h.2 p h2
    · rw [h2]

theorem rebuild_foldl (u : TypeSys) :
    ∀ (sl pre : List (Nat × Obj)),
      ((pre ++ sl).map Prod.fst).Nodup → (∀ p ∈ sl, p.1 = resolveTy u p.2.ty) →
      (sl.map Prod.snd).foldl (fun acc c => aupdate acc (resolveTy u c.ty) c) pre = pre ++ sl := by
  intro sl
  induction sl with
  | nil => intro pre _ _; simp
  | cons p rest ih =>
    obtain ⟨k, v⟩ := p
    intro pre hnd hcanon
    have hk : resolveTy u v.ty = k := (hcanon (k, v) (List.mem_cons_self _ _)).symm
    have hknotpre : k ∉ pre.map Prod.fst := by
      rw [List.map_append] at hnd
      have hdis := (List.nodup_append.mp hnd).2.2
      intro hmem
      exact hdis hmem (by simp)
    simp only [List.map_cons, List.foldl_cons, hk, aupdate_append_of_not_mem _ _ _ hknotpre]
    rw [ih (pre ++ [(k, v)]) (by simpa using hnd) fun q hq => hcanon q (List.mem_cons_of_mem _ hq)]
    simp

/-! ### ComponentDict: clear as repeated popitem -/

theorem clearLoop_spec (u : TypeSys) (gobs : List Nat) :
    ∀ (n : Nat) (s : CDState), s.slots.length ≤ n →
      (∀ p ∈ s.slots, resolveTy u p.1 = p.1) →
      ComponentDict.clearLoop u gobs n s
          = ComponentDict.deleteAll gobs s (s.slots.map Prod.fst)
        ∧ okState (ComponentDict.clearLoop u gobs n s)
          = some { slots := [], observers := s.observers } := by
  intro n
  induction n with
  | zero =>
    intro s hlen _
    obtain ⟨slots, obs⟩ := s
    have hsl : slots = [] := List.length_eq_zero.mp (Nat.le_zero.mp hlen)
    subst hsl
    exact ⟨rfl, rfl⟩
  | succ n ih =>
    intro s hlen hval
    obtain ⟨slots, obs⟩ := s
    cases slots with
    | nil => exact ⟨rfl, rfl⟩
    | cons p rest =>
      obtain ⟨k, v⟩ := p
      have hk : resolveTy u k = k := hval (k, v) (List.mem_cons_self _ _)
      have hget : ComponentDict.getitem u ⟨(k, v) :: rest, obs⟩ k = .ok v := by
        simp [ComponentDict.getitem, hk, alookup]
      have hdelred : alookup (((k, v) :: rest : List (Nat × Obj))) k = some v := by
        simp [alookup]
      have hlen' : (rest : List (Nat × Obj)).length ≤ n := by
        simpa using Nat.le_of_succ_le_succ (by simpa using hlen)
      have ihres := ih ⟨rest, obs⟩ hlen'
        (fun p hp => hval p (List.mem_cons_of_mem _ hp))
      obtain ⟨evs', hok⟩ : ∃ evs',
          ComponentDict.clearLoop u gobs n ⟨rest, obs⟩ = .ok (⟨[], obs⟩, evs') := by
        rcases hq : ComponentDict.clearLoop u gobs n ⟨rest, obs⟩ with e | r
        · rw [hq] at ihres
          simp [okState] at ihres
        · rw [hq] at ihres
          have : r.1 = ⟨[], obs⟩ := by simpa [okState] using ihres.2
          exact ⟨r.2, by rw [← this]⟩
      have ih1 : ComponentDict.clearLoop u gobs n ⟨rest, obs⟩
          = ComponentDict.deleteAll gobs ⟨rest, obs⟩ (rest.map Prod.fst) := by
        simpa using ihres.1
      have haerase : aerase ((k, v) :: rest : List (Nat × Obj)) k = rest := by
        simp [aerase]
      have hdel : ComponentDict.delitem gobs ⟨(k, v) :: rest, obs⟩ k
          = .ok (⟨rest, obs⟩,
            (gobs.map fun g => Event.globalCall ⟨rest, obs⟩ g k none (some v))
              ++ ((alookup obs k).getD []).map fun f =>
                Event.localCall ⟨rest, obs⟩ f none (some v)) := by
        simp [ComponentDict.delitem, hdelred, haerase]
      constructor
      · simp only [ComponentDict.clearLoop, ComponentDict.deleteAll, List.map_cons,
          hget, hdel]
        rw [ih1]
      · simp only [ComponentDict.clearLoop, hget, hdel, hok]
        simp [okState]

/-! ### Claim theorems: ComponentDict -/

/-- C1: constructing a `ComponentDict` from components whose canonical keys
are pairwise distinct and then subscripting with a component's canonical
key (`resolve(c)`) returns exactly that component, for every component of
the sequence. -/
theorem componentDict_init_subscript_identity (u : TypeSys) (gobs : List Nat)
    (cs : List Obj) (obs : List (Nat × List Nat))
    (hnd : (cs.map fun c => resolveTy u c.ty).Nodup) :
    ∀ c ∈ cs, ComponentDict.getitem u (ComponentDict.init u gobs cs obs).1
      (resolveTy u c.ty) = .ok c := by
  intro c hc
  rw [ComponentDict.init, set_state]
  simp only [ComponentDict.getitem, resolveTy_idem, if_true]
  rw [alookup_foldl_aupdate_mem (fun c => resolveTy u c.ty) cs [] c hnd hc]

theorem componentDict_init_subscript_identity_witness :
    (([Obj.mk 2 5, Obj.mk 3 7].map fun c => resolveTy sampleTS c.ty).Nodup)
    ∧ ComponentDict.getitem sampleTS
        (ComponentDict.init sampleTS [] [Obj.mk 2 5, Obj.mk 3 7] []).1
        (resolveTy sampleTS (Obj.mk 2 5).ty) = .ok (Obj.mk 2 5) :=
  ⟨by decide, componentDict_init_subscript_identity sampleTS [] [Obj.mk 2 5, Obj.mk 3 7] []
    (by decide) (Obj.mk 2 5) (by decide)⟩

/-- C4: a keyed assignment whose value's canonical key differs from the
given key fails with the type-mismatch error and produces no successor
state and no observer calls (the check precedes any mutation). -/
theorem componentDict_setitem_mismatch_rejected (u : TypeSys) (gobs : List Nat)
    (s : CDState) (k : Nat) (v : Obj) (h : resolveTy u v.ty ≠ k) :
    ComponentDict.setitem u gobs s k v = .error .typeError
    ∧ ∀ r, ComponentDict.setitem u gobs s k v ≠ .ok r := by
  refine ⟨by simp [ComponentDict.setitem, h], fun r => by simp [ComponentDict.setitem, h]⟩

theorem componentDict_setitem_mismatch_rejected_witness :
    resolveTy sampleTS (Obj.mk 2 5).ty ≠ 2
    ∧ ComponentDict.setitem sampleTS [] ⟨[], []⟩ 2 (Obj.mk 2 5) = .error .typeError :=
  ⟨by decide, (componentDict_setitem_mismatch_rejected sampleTS [] ⟨[], []⟩ 2 (Obj.mk 2 5)
    (by decide)).1⟩

/-- C6: for a valid (non-derived) key, keyed lookup raises the missing-key
error exactly when the key has no stored entry, and returns the stored
value when it has one. -/
theorem componentDict_getitem_missing_key (u : TypeSys) (s : CDState) (k : Nat)
    (hk : resolveTy u k = k) :
    (ComponentDict.getitem u s k = .error (.keyError k) ↔ alookup s.slots k = none)
    ∧ ∀ v, alookup s.slots k = some v → ComponentDict.getitem u s k = .ok v := by
  constructor
  · cases h : alookup s.slots k with
    | none => simp [ComponentDict.getitem, hk, h]
    | some v => simp [ComponentDict.getitem, hk, h]
  · intro v hv
    simp [ComponentDict.getitem, hk, hv]

theorem componentDict_getitem_missing_key_witness :
    resolveTy sampleTS 5 = 5
    ∧ ((ComponentDict.getitem sampleTS ⟨[(3, Obj.mk 3 1)], []⟩ 5 = .error (.keyError 5)
        ↔ alookup ([(3, Obj.mk 3 1)] : List (Nat × Obj)) 5 = none)
      ∧ ∀ v, alookup ([(3, Obj.mk 3 1)] : List (Nat × Obj)) 5 = some v →
          ComponentDict.getitem sampleTS ⟨[(3, Obj.mk 3 1)], []⟩ 5 = .ok v) :=
  ⟨by decide, componentDict_getitem_missing_key sampleTS ⟨[(3, Obj.mk 3 1)], []⟩ 5 (by decide)⟩

/-- C3: a keyed assignment that passes the key-match check stores the slot
first and then invokes every global observer in registration order with
`(container, key, new, old)` followed by every local observer for the key
with `(container, new, old)`, each exactly once, where `old` is the
previously stored value or `None`; deletion fires the same sequence with
`new = None`. -/
theorem componentDict_observer_dispatch (u : TypeSys) (gobs : List Nat)
    (s : CDState) (k : Nat) (v old : Obj) (hk : resolveTy u v.ty = k) :
    ComponentDict.setitem u gobs s k v =
      .ok ({ s with slots := aupdate s.slots k v },
        (gobs.map fun g => Event.globalCall { s with slots := aupdate s.slots k v }
          g k (some v) (alookup s.slots k))
          ++ ((alookup s.observers k).getD []).map fun f =>
            Event.localCall { s with slots := aupdate s.slots k v } f (some v)
              (alookup s.slots k))
    ∧ (alookup s.slots k = some old →
      ComponentDict.delitem gobs s k =
        .ok ({ s with slots := aerase s.slots k },
          (gobs.map fun g => Event.globalCall { s with slots := aerase s.slots k }
            g k none (some old))
            ++ ((alookup s.observers k).getD []).map fun f =>
              Event.localCall { s with slots := aerase s.slots k } f none (some old))) := by
  constructor
  · simp [ComponentDict.setitem, hk, ComponentDict.store]
  · intro h
    simp [ComponentDict.delitem, h]

theorem componentDict_observer_dispatch_witness :
    resolveTy sampleTS (Obj.mk 2 5).ty = 1
    ∧ alookup ([(1, Obj.mk 1 0)] : List (Nat × Obj)) 1 = some (Obj.mk 1 0)
    ∧ (ComponentDict.setitem sampleTS [3, 4] ⟨[(1, Obj.mk 1 0)], [(1, [7])]⟩ 1 (Obj.mk 2 5) =
        .ok (⟨[(1, Obj.mk 2 5)], [(1, [7])]⟩,
          ([3, 4].map fun g => Event.globalCall ⟨[(1, Obj.mk 2 5)], [(1, [7])]⟩
            g 1 (some (Obj.mk 2 5)) (some (Obj.mk 1 0)))
            ++ [7].map fun f => Event.localCall ⟨[(1, Obj.mk 2 5)], [(1, [7])]⟩
              f (some (Obj.mk 2 5)) (some (Obj.mk 1 0)))
      ∧ (alookup ([(1, Obj.mk 1 0)] : List (Nat × Obj)) 1 = some (Obj.mk 1 0) →
        ComponentDict.delitem [3, 4] ⟨[(1, Obj.mk 1 0)], [(1, [7])]⟩ 1 =
          .ok (⟨[], [(1, [7])]⟩,
            ([3, 4].map fun g => Event.globalCall ⟨[], [(1, [7])]⟩
              g 1 none (some (Obj.mk 1 0)))
              ++ [7].map fun f => Event.localCall ⟨[], [(1, [7])]⟩
                f none (some (Obj.mk 1 0))))) :=
  ⟨by decide, by decide,
    componentDict_observer_dispatch sampleTS [3, 4] ⟨[(1, Obj.mk 1 0)], [(1, [7])]⟩ 1
      (Obj.mk 2 5) (Obj.mk 1 0) (by decide)⟩

/-- C5: for a `ComponentDict` built from a component sequence with no
observers, restoring the captured pickle state reproduces the container
state exactly — same keys and values in the same insertion order — and
its textual representation matches. -/
theorem componentDict_pickle_roundtrip (u : TypeSys) (gobs : List Nat)
    (ρ : Obj → String) (ρo : List (Nat × List Nat) → String) (cs : List Obj) :
    (ComponentDict.setstate u gobs
        (ComponentDict.getstate (ComponentDict.init u gobs cs []).1)).1
      = (ComponentDict.init u gobs cs []).1
    ∧ ComponentDict.reprStr ρ ρo (ComponentDict.setstate u gobs
        (ComponentDict.getstate (ComponentDict.init u gobs cs []).1)).1
      = ComponentDict.reprStr ρ ρo (ComponentDict.init u gobs cs []).1 := by
  have hstate : (ComponentDict.init u gobs cs []).1
      = { slots := cs.foldl (fun sl c => aupdate sl (resolveTy u c.ty) c) [],
          observers := [] } := by
    rw [ComponentDict.init, set_state]
  have hinv : SlotsInv u (cs.foldl (fun sl c => aupdate sl (resolveTy u c.ty) c) []) :=
    slotsInv_foldl u cs [] ⟨List.nodup_nil, by simp⟩
  have hrebuild :
      ((cs.foldl (fun sl c => aupdate sl (resolveTy u c.ty) c) []).map Prod.snd).foldl
        (fun sl c => aupdate sl (resolveTy u c.ty) c) []
      = cs.foldl (fun sl c => aupdate sl (resolveTy u c.ty) c) [] := by
    have h := rebuild_foldl u (cs.foldl (fun sl c => aupdate sl (resolveTy u c.ty) c) []) []
      (by simpa using hinv.1) hinv.2
    simpa using h
  have hmain : (ComponentDict.setstate u gobs
      (ComponentDict.getstate (ComponentDict.init u gobs cs []).1)).1
      = (ComponentDict.init u gobs cs []).1 := by
    rw [hstate]
    simp only [ComponentDict.setstate, ComponentDict.getstate, set_state]
    simp [hrebuild]
  exact ⟨hmain, by rw [hmain]⟩

/-- C8: `clear` on a `ComponentDict` deletes every present key one-by-one
in iteration order — equivalent to calling `__delitem__` on each key, each
firing its full delete observer sequence — and afterwards the container
holds no components (its observers dict is untouched). -/
theorem componentDict_clear_deletes_every_key (u : TypeSys) (gobs : List Nat)
    (s : CDState) (hval : ∀ p ∈ s.slots, resolveTy u p.1 = p.1) :
    ComponentDict.clear u gobs s = ComponentDict.deleteAll gobs s (s.slots.map Prod.fst)
    ∧ okState (ComponentDict.clear u gobs s)
      = some { slots := [], observers := s.observers } :=
  clearLoop_spec u gobs s.slots.length s (Nat.le_refl _) hval

theorem componentDict_clear_deletes_every_key_witness :
    (∀ p ∈ ([(1, Obj.mk 2 5), (3, Obj.mk 3 7)] : List (Nat × Obj)),
      resolveTy sampleTS p.1 = p.1)
    ∧ (ComponentDict.clear sampleTS [9] ⟨[(1, Obj.mk 2 5), (3, Obj.mk 3 7)], [(1, [4])]⟩
        = ComponentDict.deleteAll [9] ⟨[(1, Obj.mk 2 5), (3, Obj.mk 3 7)], [(1, [4])]⟩ [1, 3]
      ∧ okState (ComponentDict.clear sampleTS [9]
          ⟨[(1, Obj.mk 2 5), (3, Obj.mk 3 7)], [(1, [4])]⟩)
        = some ⟨[], [(1, [4])]⟩) :=
  ⟨by decide, componentDict_clear_deletes_every_key sampleTS [9]
    ⟨[(1, Obj.mk 2 5), (3, Obj.mk 3 7)], [(1, [4])]⟩ (by decide)⟩

/-- C9: container equality and hashing are reference identity: two distinct
instances are unequal even with identical contents, every instance equals
itself, and the same holds for `Composite` instances. -/
theorem container_equality_is_identity (a b : CDInstance) (x y : CompositeInstance)
    (hab : a.ref ≠ b.ref) (hsab : a.state = b.state)
    (hxy : x.ref ≠ y.ref) (hsxy : x.state = y.state) :
    CDInstance.eqPy a b = false ∧ CDInstance.eqPy a a = true
    ∧ CDInstance.hashPy a ≠ CDInstance.hashPy b
    ∧ CompositeInstance.eqPy x y = false ∧ CompositeInstance.eqPy x x = true := by
  refine ⟨?_, ?_, ?_, ?_, ?_⟩
  · simpa [CDInstance.eqPy] using hab
  · simp [CDInstance.eqPy]
  · simpa [CDInstance.hashPy] using hab
  · simpa [CompositeInstance.eqPy] using hxy
  · simp [CompositeInstance.eqPy]

theorem container_equality_is_identity_witness :
    (CDInstance.mk 0 ⟨[], []⟩).ref ≠ (CDInstance.mk 1 ⟨[], []⟩).ref
    ∧ (CDInstance.mk 0 ⟨[], []⟩).state = (CDInstance.mk 1 ⟨[], []⟩).state
    ∧ (CompositeInstance.mk 0 []).ref ≠ (CompositeInstance.mk 1 []).ref
    ∧ (CompositeInstance.mk 0 []).state = (CompositeInstance.mk 1 []).state
    ∧ (CDInstance.eqPy (CDInstance.mk 0 ⟨[], []⟩) (CDInstance.mk 1 ⟨[], []⟩) = false
      ∧ CDInstance.eqPy (CDInstance.mk 0 ⟨[], []⟩) (CDInstance.mk 0 ⟨[], []⟩) = true
      ∧ CDInstance.hashPy (CDInstance.mk 0 ⟨[], []⟩)
          ≠ CDInstance.hashPy (CDInstance.mk 1 ⟨[], []⟩)
      ∧ CompositeInstance.eqPy (CompositeInstance.mk 0 []) (CompositeInstance.mk 1 []) = false
      ∧ CompositeInstance.eqPy (CompositeInstance.mk 0 []) (CompositeInstance.mk 0 []) = true) :=
  ⟨by decide, by decide, by decide, by decide,
    container_equality_is_identity (CDInstance.mk 0 ⟨[], []⟩) (CDInstance.mk 1 ⟨[], []⟩)
      (CompositeInstance.mk 0 []) (CompositeInstance.mk 1 [])
      (by decide) (by decide) (by decide) (by decide)⟩

/-! ### Composite: add and remove over the MRO chain -/

theorem alookup_add_foldl (c : Obj) :
    ∀ (ts : List Nat) (s : Composite.State), ts.Nodup → ∀ t,
      alookup (ts.foldl (fun s t => aupdate s t ((alookup s t).getD [] ++ [c])) s) t
        = if t ∈ ts then some ((alookup s t).getD [] ++ [c]) else alookup s t := by
  intro ts
  induction ts with
  | nil => intro s _ t; simp
  | cons t0 rest ih =>
    intro s hnd t
    simp only [List.nodup_cons] at hnd
    simp only [List.foldl_cons]
    rw [ih _ hnd.2 t]
    by_cases hmem : t ∈ rest
    · have hne : t ≠ t0 := fun he => hnd.1 (he ▸ hmem)
      rw [if_pos hmem, if_pos (List.mem_cons_of_mem _ hmem),
        alookup_aupdate_ne _ _ _ _ hne]
    · by_cases het : t = t0
      · subst het
        rw [if_neg hmem, alookup_aupdate_self, if_pos (List.mem_cons_self _ _)]
      · rw [if_neg hmem, alookup_aupdate_ne _ _ _ _ het,
          if_neg (by simp [het, hmem])]

theorem alookup_composite_add (u : TypeSys) (s : Composite.State) (c : Obj) (t : Nat) :
    alookup (Composite.add u s c) t
      = if t ∈ u.mro c.ty then some ((alookup s t).getD [] ++ [c])
        else alookup s t :=
  alookup_add_foldl c (u.mro c.ty) s (u.mro_nodup c.ty) t

theorem nodup_keys_add (u : TypeSys) (s : Composite.State) (c : Obj)
    (h : (s.map Prod.fst).Nodup) : ((Composite.add u s c).map Prod.fst).Nodup := by
  rw [Composite.add]
  generalize u.mro c.ty = ts
  induction ts generalizing s with
  | nil => exact h
  | cons t0 rest ih =>
    exact ih _ (nodup_aupdate _ _ _ h)

theorem removeChain_spec (u : TypeSys) (c : Obj) :
    ∀ (ts : List Nat) (s : Composite.State), ts.Nodup → (s.map Prod.fst).Nodup →
      (∀ t ∈ ts, ∃ l, alookup s t = some l ∧ c ∈ l) →
      (Composite.removeChain u s ts c).2 = none
      ∧ (((Composite.removeChain u s ts c).1).map Prod.fst).Nodup
      ∧ ∀ t, alookup (Composite.removeChain u s ts c).1 t =
          if t ∈ ts then
            (if Composite.removeFirst ((alookup s t).getD []) c = [] then none
              else some (Composite.removeFirst ((alookup s t).getD []) c))
          else alookup s t := by
  intro ts
  induction ts with
  | nil =>
    intro s _ hk _
    exact ⟨rfl, hk, fun t => by simp [Composite.removeChain]⟩
  | cons t0 rest ih =>
    intro s hnd hk hpres
    simp only [List.nodup_cons] at hnd
    obtain ⟨l0, hl0, hc0⟩ := hpres t0 (List.mem_cons_self _ _)
    have hstep : Composite.removeChain u s (t0 :: rest) c
        = Composite.removeChain u (if Composite.removeFirst l0 c = [] then aerase s t0
            else aupdate s t0 (Composite.removeFirst l0 c)) rest c := by
      simp [Composite.removeChain, hl0, hc0]
    set s1 := (if Composite.removeFirst l0 c = [] then aerase s t0
      else aupdate s t0 (Composite.removeFirst l0 c)) with hs1
    have hk1 : (s1.map Prod.fst).Nodup := by
      rw [hs1]; split
      · exact nodup_aerase _ _ hk
      · exact nodup_aupdate _ _ _ hk
    have hlook_ne : ∀ t, t ≠ t0 → alookup s1 t = alookup s t := by
      intro t htne
      rw [hs1]; split
      · exact alookup_aerase_ne _ _ _ htne
      · exact alookup_aupdate_ne _ _ _ _ htne
    have hlook_t0 : alookup s1 t0 =
        (if Composite.removeFirst l0 c = [] then none
          else some (Composite.removeFirst l0 c)) := by
      rw [hs1]; split
      · exact alookup_aerase_self _ _ hk
      · exact alookup_aupdate_self _ _ _
    have hpres1 : ∀ t ∈ rest, ∃ l, alookup s1 t = some l ∧ c ∈ l := by
      intro t hmem
      have hne : t ≠ t0 := fun he => hnd.1 (he ▸ hmem)
      rw [hlook_ne t hne]
      exact hpres t (List.mem_cons_of_mem _ hmem)
    obtain ⟨herr, hknd, hlook⟩ := ih s1 hnd.2 hk1 hpres1
    refine ⟨by rw [hstep]; exact herr, by rw [hstep]; exact hknd, ?_⟩
    intro t
    rw [hstep, hlook t]
    by_cases hmem : t ∈ rest
    · have hne : t ≠ t0 := fun he => hnd.1 (he ▸ hmem)
      rw [if_pos hmem, if_pos (List.mem_cons_of_mem _ hmem), hlook_ne t hne]
    · rw [if_neg hmem]
      by_cases het : t = t0
      · subst het
        rw [hlook_t0, if_pos (List.mem_cons_self _ _), hl0]
        simp
      · rw [hlook_ne t het, if_neg (by simp [het, hmem])]

/-! ### Claim theorems: Composite add/remove fan-out and the failed-remove bug -/

/-- C2: `add` appends the component at the end of the sequence under every
type of its MRO chain; a subsequent `remove` removes one matching entry
from each of those sequences and drops each key whose sequence becomes
empty — in particular a component added alone is retrievable under each
ancestor key as a one-element sequence, and after removal none of those
keys remain. -/
theorem composite_add_remove_fanout (u : TypeSys) (s : Composite.State) (c : Obj)
    (t : Nat) (hs : (s.map Prod.fst).Nodup) (ht : t ∈ u.mro c.ty) :
    Composite.getitem (Composite.add u s c) t = Composite.getitem s t ++ [c]
    ∧ (Composite.remove u (Composite.add u s c) c).2 = none
    ∧ Composite.getitem (Composite.remove u (Composite.add u s c) c).1 t
        = Composite.removeFirst (Composite.getitem s t ++ [c]) c
    ∧ (alookup (Composite.remove u (Composite.add u s c) c).1 t = none
        ↔ Composite.removeFirst (Composite.getitem s t ++ [c]) c = [])
    ∧ Composite.getitem (Composite.add u [] c) t = [c]
    ∧ alookup (Composite.remove u (Composite.add u [] c) c).1 t = none := by
  have hpres : ∀ (s' : Composite.State), ∀ t' ∈ u.mro c.ty,
      ∃ l, alookup (Composite.add u s' c) t' = some l ∧ c ∈ l := by
    intro s' t' ht'
    rw [alookup_composite_add, if_pos ht']
    exact ⟨_, rfl, by simp⟩
  have hspec := removeChain_spec u c (u.mro c.ty) (Composite.add u s c)
    (u.mro_nodup c.ty) (nodup_keys_add u s c hs) (hpres s)
  have hspec0 := removeChain_spec u c (u.mro c.ty) (Composite.add u [] c)
    (u.mro_nodup c.ty) (nodup_keys_add u [] c (by simp)) (hpres [])
  have haddt : alookup (Composite.add u s c) t = some (Composite.getitem s t ++ [c]) := by
    rw [alookup_composite_add, if_pos ht]; rfl
  have hadd0 : alookup (Composite.add u [] c) t = some [c] := by
    rw [alookup_composite_add, if_pos ht]; simp [alookup]
  have hrt := hspec.2.2 t
  rw [if_pos ht, haddt] at hrt
  have hrt0 := hspec0.2.2 t
  rw [if_pos ht, hadd0] at hrt0
  simp only [Option.getD_some] at hrt hrt0
  refine ⟨by simp [Composite.getitem, haddt], hspec.1, ?_, ?_,
    by simp [Composite.getitem, hadd0], ?_⟩
  · simp only [Composite.getitem, Composite.remove, hrt]
    split
    · rename_i hemp
      simp [Composite.getitem] at hemp ⊢
      simp [hemp]
    · simp [Composite.getitem]
  · simp only [Composite.remove, hrt]
    split <;> rename_i hemp <;> simp [Composite.getitem] at hemp ⊢ <;> simp [hemp]
  · simp only [Composite.remove, hrt0]
    simp [Composite.removeFirst]

theorem composite_add_remove_fanout_witness :
    ((([] : Composite.State)).map Prod.fst).Nodup
    ∧ 1 ∈ sampleTS.mro (Obj.mk 2 5).ty
    ∧ (Composite.getitem (Composite.add sampleTS [] (Obj.mk 2 5)) 1
        = Composite.getitem ([] : Composite.State) 1 ++ [Obj.mk 2 5]
      ∧ (Composite.remove sampleTS (Composite.add sampleTS [] (Obj.mk 2 5)) (Obj.mk 2 5)).2
          = none
      ∧ Composite.getitem
          (Composite.remove sampleTS (Composite.add sampleTS [] (Obj.mk 2 5)) (Obj.mk 2 5)).1 1
          = Composite.removeFirst
            (Composite.getitem ([] : Composite.State) 1 ++ [Obj.mk 2 5]) (Obj.mk 2 5)
      ∧ (alookup
          (Composite.remove sampleTS (Composite.add sampleTS [] (Obj.mk 2 5)) (Obj.mk 2 5)).1 1
            = none
          ↔ Composite.removeFirst
            (Composite.getitem ([] : Composite.State) 1 ++ [Obj.mk 2 5]) (Obj.mk 2 5) = [])
      ∧ Composite.getitem (Composite.add sampleTS [] (Obj.mk 2 5)) 1 = [Obj.mk 2 5]
      ∧ alookup
          (Composite.remove sampleTS (Composite.add sampleTS [] (Obj.mk 2 5)) (Obj.mk 2 5)).1 1
          = none) :=
  ⟨by decide, by decide,
    composite_add_remove_fanout sampleTS [] (Obj.mk 2 5) 1 (by decide) (by decide)⟩

/-- C7 (code bug at the failing input): removing a component that is not
present raises `ValueError`, but the defaultdict access has already
inserted an empty list under the component's class, so afterwards that key
is still present, `__contains__` reports it as contained, and its stored
sequence is empty — contradicting the claimed every-present-key-non-empty
invariant and the contains-iff-stored reading. -/
theorem composite_failed_remove_leaves_empty_key :
    (Composite.remove sampleTS [] (Obj.mk 3 50)).2 = some .valueError
    ∧ alookup (Composite.remove sampleTS [] (Obj.mk 3 50)).1 3 = some []
    ∧ Composite.contains (Composite.remove sampleTS [] (Obj.mk 3 50)).1 [3] = true
    ∧ Composite.getitem (Composite.remove sampleTS [] (Obj.mk 3 50)).1 3 = [] := by
  decide

/-! ### Composite: removeFirst interacts with filter and count -/

theorem removeFirst_filter_pos (p : Obj → Bool) (c : Obj) (hp : p c = true) :
    ∀ L : List Obj, (Composite.removeFirst L c).filter p
      = Composite.removeFirst (L.filter p) c := by
  intro L
  induction L with
  | nil => rfl
  | cons x xs ih =>
    by_cases hx : x = c
    · subst hx
      simp [Composite.removeFirst, hp]
    · cases hpx : p x with
      | true => simp [Composite.removeFirst, hx, List.filter_cons, hpx, ih]
      | false => simp [Composite.removeFirst, hx, List.filter_cons, hpx, ih]

theorem removeFirst_filter_neg (p : Obj → Bool) (c : Obj) (hp : p c = false) :
    ∀ L : List Obj, (Composite.removeFirst L c).filter p = L.filter p := by
  intro L
  induction L with
  | nil => rfl
  | cons x xs ih =>
    by_cases hx : x = c
    · subst hx
      simp [Composite.removeFirst, List.filter_cons, hp]
    · cases hpx : p x with
      | true => simp [Composite.removeFirst, hx, List.filter_cons, hpx, ih]
      | false => simp [Composite.removeFirst, hx, List.filter_cons, hpx, ih]

theorem count_removeFirst_self (c : Obj) : ∀ L : List Obj, c ∈ L →
    (Composite.removeFirst L c).count c + 1 = L.count c := by
  intro L
  induction L with
  | nil => intro h; cases h
  | cons x xs ih =>
    intro hmem
    by_cases hx : x = c
    · subst hx
      simp [Composite.removeFirst, List.count_cons]
    · have hcm : c ∈ xs := by
        rcases List.mem_cons.mp hmem with h | h
        · exact absurd h.symm hx
        · exact h
      have hbeq : ((x : Obj) == c) = false := by simp [hx]
      simp [Composite.removeFirst, hx, List.count_cons, hbeq, ih hcm]

theorem count_removeFirst_ne (c x : Obj) (hx : x ≠ c) : ∀ L : List Obj,
    (Composite.removeFirst L c).count x = L.count x := by
  intro L
  induction L with
  | nil => rfl
  | cons y ys ih =>
    by_cases hy : y = c
    · subst hy
      have hbeq : ((y : Obj) == x) = false := by
        simp
        exact fun he => hx he.symm
      simp [Composite.removeFirst, List.count_cons, hbeq]
    · simp [Composite.removeFirst, hy, List.count_cons, ih]

theorem foldl_removeFirst_not_mem (a : Obj) :
    ∀ (todo M : List Obj), (∀ x ∈ todo, x ≠ a) →
      todo.foldl Composite.removeFirst (a :: M)
        = a :: todo.foldl Composite.removeFirst M := by
  intro todo
  induction todo with
  | nil => intro M _; rfl
  | cons x rest ih =>
    intro M hx
    have hxa : ¬ (a = x) := fun he => (hx x (List.mem_cons_self _ _)) he.symm
    simp only [List.foldl_cons, Composite.removeFirst, if_neg hxa]
    exact ih _ fun y hy => hx y (List.mem_cons_of_mem _ hy)

theorem foldl_removeFirst_filter (p : Obj → Bool) :
    ∀ L : List Obj, (L.filter p).foldl Composite.removeFirst L
      = L.filter (fun x => !(p x)) := by
  intro L
  induction L with
  | nil => rfl
  | cons a L' ih =>
    cases hpa : p a with
    | true =>
      have h1 : Composite.removeFirst (a :: L') a = L' := by
        simp [Composite.removeFirst]
      simp [List.filter_cons, hpa, h1, ih]
    | false =>
      have hneq : ∀ x ∈ L'.filter p, x ≠ a := by
        intro x hxm he
        have := (List.mem_filter.mp hxm).2
        rw [he, hpa] at this
        cases this
      have hfc : (a :: L').filter p = L'.filter p := by
        simp [List.filter_cons, hpa]
      have hfc2 : (a :: L').filter (fun x => !(p x)) = a :: L'.filter (fun x => !(p x)) := by
        simp [List.filter_cons, hpa]
      rw [hfc, hfc2, foldl_removeFirst_not_mem a _ _ hneq, ih]

/-! ### Composite: the canonical-index invariant is preserved -/

theorem indexes_getD (u : TypeSys) (s : Composite.State) (L : List Obj)
    (h : Composite.Indexes u s L) (t : Nat) :
    (alookup s t).getD [] = Composite.chainFilter u L t := by
  rw [h.2 t]
  by_cases hemp : Composite.chainFilter u L t = [] <;> simp [hemp]

theorem getitem_of_indexes (u : TypeSys) (s : Composite.State) (L : List Obj)
    (h : Composite.Indexes u s L) (t : Nat) :
    Composite.getitem s t = Composite.chainFilter u L t :=
  indexes_getD u s L h t

theorem indexes_add (u : TypeSys) (s : Composite.State) (L : List Obj) (c : Obj)
    (h : Composite.Indexes u s L) :
    Composite.Indexes u (Composite.add u s c) (L ++ [c]) := by
  refine ⟨nodup_keys_add u s c h.1, ?_⟩
  intro t
  rw [alookup_composite_add]
  by_cases hm : t ∈ u.mro c.ty
  · have hcf : Composite.chainFilter u (L ++ [c]) t = Composite.chainFilter u L t ++ [c] := by
      simp [Composite.chainFilter, List.filter_append, hm]
    rw [if_pos hm, hcf, if_neg (by simp), indexes_getD u s L h t]
  · have hcf : Composite.chainFilter u (L ++ [c]) t = Composite.chainFilter u L t := by
      simp [Composite.chainFilter, List.filter_append, hm]
    rw [if_neg hm, hcf, h.2 t]

theorem indexes_remove (u : TypeSys) (s : Composite.State) (L : List Obj) (c : Obj)
    (h : Composite.Indexes u s L) (hc : c ∈ L) :
    (Composite.remove u s c).2 = none
    ∧ Composite.Indexes u (Composite.remove u s c).1 (Composite.removeFirst L c) := by
  have hpres : ∀ t ∈ u.mro c.ty, ∃ l, alookup s t = some l ∧ c ∈ l := by
    intro t ht
    have hmem : c ∈ Composite.chainFilter u L t := by
      simp [Composite.chainFilter, List.mem_filter, hc, ht]
    have hne : Composite.chainFilter u L t ≠ [] := by
      intro he
      rw [he] at hmem
      cases hmem
    exact ⟨_, by rw [h.2 t, if_neg hne], hmem⟩
  obtain ⟨herr, hknd, hlook⟩ := removeChain_spec u c (u.mro c.ty) s
    (u.mro_nodup c.ty) h.1 hpres
  refine ⟨herr, hknd, ?_⟩
  intro t
  show alookup (Composite.removeChain u s (u.mro c.ty) c).1 t = _
  rw [hlook t]
  by_cases hm : t ∈ u.mro c.ty
  · rw [if_pos hm, indexes_getD u s L h t]
    have hcomm : Composite.chainFilter u (Composite.removeFirst L c) t
        = Composite.removeFirst (Composite.chainFilter u L t) c := by
      rw [Composite.chainFilter, Composite.chainFilter,
        removeFirst_filter_pos _ _ (by simp [hm])]
    rw [hcomm]
  · rw [if_neg hm, h.2 t]
    have hcomm : Composite.chainFilter u (Composite.removeFirst L c) t
        = Composite.chainFilter u L t := by
      rw [Composite.chainFilter, Composite.chainFilter,
        removeFirst_filter_neg _ _ (by simp [hm])]
    rw [hcomm]

theorem indexes_removeAll (u : TypeSys) :
    ∀ (todo : List Obj) (s : Composite.State) (L : List Obj), Composite.Indexes u s L →
      (∀ x, todo.count x ≤ L.count x) →
      (Composite.removeAll u s todo).2 = none
      ∧ Composite.Indexes u (Composite.removeAll u s todo).1
          (todo.foldl Composite.removeFirst L) := by
  intro todo
  induction todo with
  | nil =>
    intro s L h _
    exact ⟨rfl, h⟩
  | cons c rest ih =>
    intro s L h hcnt
    have hc : c ∈ L := by
      have h1 := hcnt c
      rw [List.count_cons_self] at h1
      exact List.count_pos_iff.mp (by omega)
    obtain ⟨herr, hidx⟩ := indexes_remove u s L c h hc
    rcases hre : Composite.remove u s c with ⟨s1, e⟩
    rw [hre] at herr hidx
    simp only at herr
    subst herr
    have hcnt1 : ∀ x, rest.count x ≤ (Composite.removeFirst L c).count x := by
      intro x
      by_cases hx : x = c
      · subst hx
        have h1 := hcnt x
        rw [List.count_cons_self] at h1
        have h2 := count_removeFirst_self x L hc
        omega
      · rw [count_removeFirst_ne c x hx L]
        have h1 := hcnt x
        have hbeq : ((c : Obj) == x) = false := by
          simp
          exact fun he => hx he.symm
        rw [List.count_cons, hbeq] at h1
        omega
    obtain ⟨herr2, hidx2⟩ := ih s1 (Composite.removeFirst L c) hidx hcnt1
    constructor
    · simp only [Composite.removeAll, hre]
      exact herr2
    · simp only [Composite.removeAll, hre, List.foldl_cons]
      exact hidx2

theorem indexes_delitem (u : TypeSys) (s : Composite.State) (L : List Obj) (k : Nat)
    (h : Composite.Indexes u s L) :
    (Composite.delitem u s k).2 = none
    ∧ Composite.Indexes u (Composite.delitem u s k).1
        (L.filter fun c => !(decide (k ∈ u.mro c.ty))) := by
  rcases hl : alookup s k with _ | l
  · have hcf : Composite.chainFilter u L k = [] := by
      have h2 := h.2 k
      rw [hl] at h2
      by_contra hne
      rw [if_neg hne] at h2
      exact Option.noConfusion h2
    have hfilt : (L.filter fun c => !(decide (k ∈ u.mro c.ty))) = L := by
      apply List.filter_eq_self.mpr
      intro a ha
      have h3 := List.filter_eq_nil_iff.mp hcf a ha
      simpa using h3
    constructor
    · simp [Composite.delitem, hl]
    · simp only [Composite.delitem, hl]
      rw [hfilt]
      exact h
  · have hlval : l = Composite.chainFilter u L k := by
      have h2 := h.2 k
      rw [hl] at h2
      by_cases hemp : Composite.chainFilter u L k = []
      · rw [if_pos hemp] at h2
        exact Option.noConfusion h2
      · rw [if_neg hemp] at h2
        exact Option.some.inj h2
    have hcnt : ∀ x, l.count x ≤ L.count x := by
      intro x
      rw [hlval]
      exact (List.filter_sublist L).count_le x
    obtain ⟨herr, hidx⟩ := indexes_removeAll u l s L h hcnt
    have hfold : l.foldl Composite.removeFirst L
        = L.filter fun c => !(decide (k ∈ u.mro c.ty)) := by
      rw [hlval]
      exact foldl_removeFirst_filter _ L
    constructor
    · simp only [Composite.delitem, hl]
      exact herr
    · simp only [Composite.delitem, hl]
      rw [← hfold]
      exact hidx

theorem indexes_extend_foldl (u : TypeSys) :
    ∀ (vs : List Obj) (s : Composite.State) (L : List Obj), Composite.Indexes u s L →
      Composite.Indexes u (vs.foldl (Composite.add u) s) (L ++ vs) := by
  intro vs
  induction vs with
  | nil => intro s L h; simpa using h
  | cons v rest ih =>
    intro s L h
    have h1 := ih (Composite.add u s v) (L ++ [v]) (indexes_add u s L v h)
    simpa using h1

theorem indexes_init (u : TypeSys) (cs : List Obj) :
    Composite.Indexes u (Composite.init u cs) cs := by
  have hbase : Composite.Indexes u ([] : Composite.State) [] :=
    ⟨by simp, fun t => by simp [Composite.chainFilter, alookup]⟩
  have h := indexes_extend_foldl u cs [] [] hbase
  simpa [Composite.init] using h

/-! ### Claim theorems: Composite keyed replacement -/

/-- C10: `Composite.__setitem__` performs no type validation relating the
values to the key: on a bag faithfully indexing a master list `L` it
always succeeds, first removing every component indexed under `k`
(cascading through each removed component's ancestor keys) and then
adding each value under its own ancestor chain, so the bag afterwards
indexes `L` without the instances of `k`, followed by the new values;
the entry under `k` then holds exactly the values that are instances of
`k` — a non-instance value does not appear under `k` — and the added
values sit at the end of the root-key order. -/
theorem composite_setitem_no_validation (u : TypeSys) (s : Composite.State)
    (L : List Obj) (k : Nat) (vs : List Obj) (h : Composite.Indexes u s L) :
    (Composite.setitem u s k vs).2 = none
    ∧ Composite.Indexes u (Composite.setitem u s k vs).1
        ((L.filter fun c => !(decide (k ∈ u.mro c.ty))) ++ vs)
    ∧ Composite.getitem (Composite.setitem u s k vs).1 k
        = (vs.filter fun c => decide (k ∈ u.mro c.ty))
    ∧ (∀ v ∈ vs, k ∉ u.mro v.ty →
        v ∉ Composite.getitem (Composite.setitem u s k vs).1 k)
    ∧ Composite.getitem (Composite.setitem u s k vs).1 0
        = (L.filter fun c => !(decide (k ∈ u.mro c.ty))) ++ vs := by
  obtain ⟨herr, hdel⟩ := indexes_delitem u s L k h
  rcases hq : Composite.delitem u s k with ⟨s1, e⟩
  rw [hq] at herr hdel
  simp only at herr hdel
  subst herr
  have hset : Composite.setitem u s k vs = (vs.foldl (Composite.add u) s1, none) := by
    simp [Composite.setitem, hq]
  have hidx := indexes_extend_foldl u vs s1 _ hdel
  have hk3 : Composite.getitem (Composite.setitem u s k vs).1 k
      = vs.filter fun c => decide (k ∈ u.mro c.ty) := by
    rw [hset]
    show Composite.getitem (vs.foldl (Composite.add u) s1) k = _
    rw [getitem_of_indexes u _ _ hidx k, Composite.chainFilter, List.filter_append]
    have hnil : ((L.filter fun c => !(decide (k ∈ u.mro c.ty))).filter
        fun c => decide (k ∈ u.mro c.ty)) = [] := by
      rw [List.filter_filter]
      apply List.filter_eq_nil_iff.mpr
      intro a _
      simp
    rw [hnil, List.nil_append]
  have hroot : Composite.getitem (Composite.setitem u s k vs).1 0
      = (L.filter fun c => !(decide (k ∈ u.mro c.ty))) ++ vs := by
    rw [hset]
    show Composite.getitem (vs.foldl (Composite.add u) s1) 0 = _
    rw [getitem_of_indexes u _ _ hidx 0, Composite.chainFilter, List.filter_append]
    have hall : ∀ M : List Obj, (M.filter fun c => decide ((0 : Nat) ∈ u.mro c.ty)) = M := by
      intro M
      apply List.filter_eq_self.mpr
      intro a _
      simp [u.mro_root]
    rw [hall, hall]
  refine And.intro (by rw [hset]) (And.intro (by rw [hset]; exact hidx)
    (And.intro hk3 (And.intro ?_ hroot)))
  intro v hv hnk
  rw [hk3]
  intro hmem
  have h2 := (List.mem_filter.mp hmem).2
  simp at h2
  exact hnk h2

theorem composite_setitem_no_validation_witness :
    Composite.Indexes sampleTS (Composite.init sampleTS [Obj.mk 3 50]) [Obj.mk 3 50]
    ∧ ((Composite.setitem sampleTS (Composite.init sampleTS [Obj.mk 3 50]) 3
          [Obj.mk 4 7, Obj.mk 3 9]).2 = none
      ∧ Composite.Indexes sampleTS
          (Composite.setitem sampleTS (Composite.init sampleTS [Obj.mk 3 50]) 3
            [Obj.mk 4 7, Obj.mk 3 9]).1
          (([Obj.mk 3 50].filter fun c => !(decide (3 ∈ sampleTS.mro c.ty)))
            ++ [Obj.mk 4 7, Obj.mk 3 9])
      ∧ Composite.getitem
          (Composite.setitem sampleTS (Composite.init sampleTS [Obj.mk 3 50]) 3
            [Obj.mk 4 7, Obj.mk 3 9]).1 3
          = ([Obj.mk 4 7, Obj.mk 3 9].filter fun c => decide (3 ∈ sampleTS.mro c.ty))
      ∧ (∀ v ∈ [Obj.mk 4 7, Obj.mk 3 9], 3 ∉ sampleTS.mro v.ty →
          v ∉ Composite.getitem
            (Composite.setitem sampleTS (Composite.init sampleTS [Obj.mk 3 50]) 3
              [Obj.mk 4 7, Obj.mk 3 9]).1 3)
      ∧ Composite.getitem
          (Composite.setitem sampleTS (Composite.init sampleTS [Obj.mk 3 50]) 3
            [Obj.mk 4 7, Obj.mk 3 9]).1 0
          = ([Obj.mk 3 50].filter fun c => !(decide (3 ∈ sampleTS.mro c.ty)))
            ++ [Obj.mk 4 7, Obj.mk 3 9]) :=
  ⟨indexes_init sampleTS [Obj.mk 3 50],
    composite_setitem_no_validation sampleTS (Composite.init sampleTS [Obj.mk 3 50])
      [Obj.mk 3 50] 3 [Obj.mk 4 7, Obj.mk 3 9] (indexes_init sampleTS [Obj.mk 3 50])⟩
